import Mathlib

/-!
Shallow embedding of the authorization / session-lifecycle / moderation core
of the `q1_discord_mcp_server` sources (`src/auth/index.js`,
`src/discord/botManager.js`, `src/moderation/contentModerator.js`,
`src/index.js`), together with theorems settling the spec's claims about it.

JavaScript `Map` objects are embedded as association lists in insertion
order; `Date.now()` timestamps are `Int` milliseconds; the environment-driven
configuration is embedded at its schema defaults (`config/index.js`).
-/

namespace DiscordMcp

/-! ## JavaScript `Map` embedding

`Map.get` / `Map.set` / `Map.delete` / `Map.has` over an association list in
insertion order.  `mapSet` replaces the value of an existing key in place and
otherwise appends, exactly as a JS `Map` keeps insertion order. -/

def mapGet {α : Type} : List (String × α) → String → Option α
  | [], _ => none
  | e :: es, k => if e.1 = k then some e.2 else mapGet es k

def mapSet {α : Type} : List (String × α) → String → α → List (String × α)
  | [], k, v => [(k, v)]
  | e :: es, k, v => if e.1 = k then (k, v) :: es else e :: mapSet es k v

/-- `Map.delete`: afterwards `Map.get` on the key misses.  (A JS `Map`
holds each key at most once; removing every occurrence from the association
list keeps that contract even on lists not built through `mapSet`.) -/
def mapDelete {α : Type} : List (String × α) → String → List (String × α)
  | [], _ => []
  | e :: es, k => if e.1 = k then mapDelete es k else e :: mapDelete es k

def mapHas {α : Type} (m : List (String × α)) (k : String) : Bool :=
  (mapGet m k).isSome

theorem mapGet_mapSet {α : Type} (m : List (String × α)) (k : String) (v : α) :
    mapGet (mapSet m k v) k = some v := by
  induction m with
  | nil => simp [mapGet, mapSet]
  | cons e es ih =>
    by_cases h : e.1 = k
    · simp [mapGet, mapSet, h]
    · simp [mapGet, mapSet, h, ih]

theorem mapGet_mapDelete {α : Type} (m : List (String × α)) (k : String) :
    mapGet (mapDelete m k) k = none := by
  induction m with
  | nil => rfl
  | cons e es ih =>
    by_cases h : e.1 = k
    · simp [mapDelete, h, ih]
    · simp [mapDelete, mapGet, h, ih]

theorem mapGet_mapSet_ne {α : Type} (m : List (String × α)) (k k' : String) (v : α)
    (h : k ≠ k') : mapGet (mapSet m k v) k' = mapGet m k' := by
  induction m with
  | nil => simp [mapGet, mapSet, h]
  | cons e es ih =>
    by_cases he : e.1 = k
    · simp [mapGet, mapSet, he, h]
    · by_cases he' : e.1 = k'
      · simp [mapGet, mapSet, he, he', Ne.symm h]
      · simp [mapGet, mapSet, he, he', ih]

/-! ## Auth module: `src/auth/index.js` -/

/-- The value stored in the `apiKeys` map (source lines 26–33).  `createdAt`
and `lastUsed` are `Date` values, embedded as millisecond timestamps. -/
structure KeyData where
  userId : String
  hashedKey : String
  permissions : List String
  createdAt : Int
  lastUsed : Option Int
  isActive : Bool
  deriving DecidableEq, Repr

/-- The module-level `apiKeys` map (source line 8): keyed by the string the
code passes to `apiKeys.set`, which is the plaintext API key. -/
structure AuthState where
  apiKeys : List (String × KeyData)
  deriving DecidableEq, Repr

/-- The object `createApiKey` returns (source lines 39–43). -/
structure CreateApiKeyResult where
  apiKey : String
  permissions : List String
  createdAt : Int
  deriving DecidableEq, Repr

/-- `createApiKey(userId, permissions)` (source lines 22–44).  The bcrypt hash
of the fresh key is abstracted as a function `hash`, and the key produced by
`generateApiKey()` (crypto random bytes) is passed in explicitly as `apiKey`.
The code hashes the key into `keyData.hashedKey`, then executes
`apiKeys.set(apiKey, keyData)` — the *plaintext* key is the map key. -/
def createApiKey (hash : String → String) (st : AuthState) (userId : String)
    (permissions : List String) (apiKey : String) (now : Int) :
    CreateApiKeyResult × AuthState :=
  let hashedKey := hash apiKey
  let keyData : KeyData :=
    { userId := userId, hashedKey := hashedKey, permissions := permissions,
      createdAt := now, lastUsed := none, isActive := true }
  ({ apiKey := apiKey, permissions := permissions, createdAt := now },
   { apiKeys := mapSet st.apiKeys apiKey keyData })

/-- The object `validateApiKey` returns on success (source lines 61–64). -/
structure ValidatedKey where
  userId : String
  permissions : List String
  deriving DecidableEq, Repr

/-- `validateApiKey(apiKey)` (source lines 47–65).  The argument is `none`
for a missing (`null`/`undefined`) key; the JS guard `if (!apiKey)` is also
taken by the empty string (the only falsy string).  On a hit with an active
record the code sets `lastUsed` and re-`set`s the entry before returning
`{userId, permissions}`. -/
def validateApiKey (st : AuthState) (apiKey : Option String) (now : Int) :
    Option ValidatedKey × AuthState :=
  match apiKey with
  | none => (none, st)
  | some k =>
    if k = "" then (none, st)
    else
      match mapGet st.apiKeys k with
      | none => (none, st)
      | some keyData =>
        if keyData.isActive = false then (none, st)
        else
          let keyData' := { keyData with lastUsed := some now }
          (some { userId := keyData.userId, permissions := keyData.permissions },
           { apiKeys := mapSet st.apiKeys k keyData' })

/-- The `userPermissions` argument of `hasPermission` as a JS value: an array
of strings, a falsy value (`null`/`undefined`/...), or any other non-array
value. -/
inductive JsPerms where
  | arr (l : List String)
  | nullish
  | nonArray
  deriving DecidableEq, Repr

/-- `hasPermission(userPermissions, requiredPermission)` (source lines 68–76).
`if (!userPermissions || !Array.isArray(userPermissions)) return false`; an
array (even empty) is truthy and passes `Array.isArray`, everything else
returns `false`.  Then `includes(required) || includes('admin') ||
includes('*')`. -/
def hasPermission (userPermissions : JsPerms) (requiredPermission : String) : Bool :=
  match userPermissions with
  | .arr l =>
      l.contains requiredPermission || l.contains "admin" || l.contains "*"
  | .nullish => false
  | .nonArray => false

/-- The credential lines `startApplication` writes through `logger.info`
(`src/index.js` lines 64–69); line 68 interpolates the plaintext API key. -/
def startApplicationLogLines (adminUsername : String) (apiKey : String) :
    List String :=
  [ "Discord MCP Server started successfully!",
    "Default admin credentials:",
    "Username: " ++ adminUsername,
    "Password: admin123",
    "API Key: " ++ apiKey,
    "Please change these credentials in production!" ]

/-! ## Rate limiter: `createRateLimiter` (`src/auth/index.js` lines 280–314)

The middleware closes over `const requests = new Map()`, mapping each
principal key to the list of admitted timestamps.  A single invocation either
calls `next()` (accept) or answers 429 with
`retryAfter: Math.ceil(windowMs / 1000)` (reject). -/

/-- Outcome of one pass through the rate-limiting middleware. -/
inductive RLDecision where
  | accept
  | reject (retryAfter : Int)
  deriving DecidableEq, Repr

/-- `Math.ceil(w / 1000)` for an integer number of milliseconds `w`. -/
def mathCeilDiv1000 (w : Int) : Int :=
  if 0 ≤ w then (w + 999) / 1000 else -((-w) / 1000)

/-- One invocation of the middleware returned by
`createRateLimiter(windowMs, maxRequests)` (source lines 283–313), for
principal `key` at time `now`: ensure the key is present, prune entries with
`now - time < windowMs` failing, store the pruned list, then either reject
(count ≥ max, nothing recorded) or record `now` and accept. -/
def rateLimiterCall (windowMs : Int) (maxRequests : Nat)
    (requests : List (String × List Int)) (key : String) (now : Int) :
    RLDecision × List (String × List Int) :=
  let userRequests := (mapGet requests key).getD []
  let validRequests := userRequests.filter fun time => now - time < windowMs
  let requests' := mapSet requests key validRequests
  if maxRequests ≤ validRequests.length then
    (.reject (mathCeilDiv1000 windowMs), requests')
  else
    (.accept, mapSet requests key (validRequests ++ [now]))

/-- Iterate `rateLimiterCall` over a list of call timestamps for one key,
collecting the decisions. -/
def rateLimiterRun (windowMs : Int) (maxRequests : Nat)
    (requests : List (String × List Int)) (key : String) :
    List Int → List RLDecision × List (String × List Int)
  | [] => ([], requests)
  | t :: ts =>
    let step := rateLimiterCall windowMs maxRequests requests key t
    let rest := rateLimiterRun windowMs maxRequests step.2 key ts
    (step.1 :: rest.1, rest.2)

/-- Modelled from the spec: "Rejections must carry a retry-after hint equal
to the remaining window duration", i.e. the time until the oldest recorded
timestamp in the key's window expires, in seconds. -/
def retryAfterRemainingSpec (windowMs : Int) (now oldest : Int) : Int :=
  mathCeilDiv1000 (oldest + windowMs - now)

/-! ## Content moderation: `src/moderation/contentModerator.js`

Configuration is embedded at the schema defaults of `src/config/index.js`:
moderation enabled, `MAX_MESSAGE_LENGTH = 2000`,
`FORBIDDEN_WORDS = 'spam,scam,malware'`. -/

def configContentModerationEnabled : Bool := true

def configMaxMessageLength : Nat := 2000

/-- `parseForbiddenWords('spam,scam,malware')`; the `Set` built from it
iterates in this insertion order. -/
def configForbiddenWords : List String := ["spam", "scam", "malware"]

/-- The `ModerationResult` class (source lines 24–32).  Severity is the
string the code stores (`'low' | 'medium' | 'high' | 'critical'`).  The
`timestamp` field (`new Date()`) carries no information used anywhere and is
omitted. -/
structure ModerationResult where
  isApproved : Bool
  reason : String
  severity : String
  actions : List String
  deriving DecidableEq, Repr

/-- JS `String.prototype.toLowerCase`, character by character (the content
this code lowercases — and every configured word and keyword compared
against it — is ASCII). -/
def jsToLowerCase (s : String) : List Char :=
  s.toList.map Char.toLower

/-- JS `String.prototype.includes` on character lists: `containsSub hay
needle` is true iff `needle` occurs contiguously in `hay`. -/
def containsSub : List Char → List Char → Bool
  | [], needle => needle.isEmpty
  | hay@(_ :: rest), needle => needle.isPrefixOf hay || containsSub rest needle

/-- Characters matched by an unescaped `.` in a JS regex (anything but a
line terminator). -/
def isJsDot (c : Char) : Bool :=
  !(c = '\n' || c = '\r' || c.val = 0x2028 || c.val = 0x2029)

/-- JS regex `\s` (whitespace class). -/
def jsIsSpace (c : Char) : Bool :=
  c = ' ' || c = '\t' || c = '\n' || c.val = 0x0b || c.val = 0x0c || c = '\r' ||
  c.val = 0xa0 || c.val = 0x1680 || (0x2000 ≤ c.val && c.val ≤ 0x200a) ||
  c.val = 0x2028 || c.val = 0x2029 || c.val = 0x202f || c.val = 0x205f ||
  c.val = 0x3000 || c.val = 0xfeff

/-- JS regex `\w` (word character, for `\b` boundaries). -/
def isWordChar (c : Char) : Bool :=
  c.isAlphanum || c = '_'

/-- Length of the run of copies of `c` at the head of the list. -/
def runLen (c : Char) : List Char → Nat
  | [] => 0
  | x :: xs => if x = c then runLen c xs + 1 else 0

/-- `true` iff the list has a run of at least `n ≥ 1` identical characters
satisfying `p`; the existence semantics of `/(x)\1{n-1,}/` for a character
class `x ⊆ p`. -/
def hasRunGE (n : Nat) (p : Char → Bool) : List Char → Bool
  | [] => false
  | c :: cs => (p c && n ≤ runLen c cs + 1) || hasRunGE n p cs

/-- If the list starts with `http://` or `https://`, the length of that
head. -/
def urlHeadLen (l : List Char) : Option Nat :=
  if ("http://".toList).isPrefixOf l then some 7
  else if ("https://".toList).isPrefixOf l then some 8
  else none

/-- All characters of `l` in positions `[a, b)` satisfy `p`. -/
def sliceAll (l : List Char) (a b : Nat) (p : Char → Bool) : Bool :=
  ((l.drop a).take (b - a)).all p

/-- Existence semantics of `/(https?:\/\/[^\s]+){3,}/`: three adjacent units,
each a URL head followed by a non-empty run of non-space characters (the
third unit only needs one such character; further units or a longer tail are
absorbed by backtracking). -/
def hasUrlCluster (l : List Char) : Bool :=
  let n := l.length
  (List.range n).any fun i1 =>
    match urlHeadLen (l.drop i1) with
    | none => false
    | some p1 =>
      (List.range n).any fun i2 =>
        decide (i1 + p1 < i2) &&
        sliceAll l (i1 + p1) i2 (fun c => !jsIsSpace c) &&
        match urlHeadLen (l.drop i2) with
        | none => false
        | some p2 =>
          (List.range n).any fun i3 =>
            decide (i2 + p2 < i3) &&
            sliceAll l (i2 + p2) i3 (fun c => !jsIsSpace c) &&
            match urlHeadLen (l.drop i3) with
            | none => false
            | some p3 =>
              match l.get? (i3 + p3) with
              | some c => !jsIsSpace c
              | none => false

/-- Whole-word occurrence of `w` at index `i` of `l` (`\bw\b` anchored at
`i`). -/
def wordMatchAt (l : List Char) (i : Nat) (w : List Char) : Bool :=
  w.isPrefixOf (l.drop i) &&
  (match i with
   | 0 => true
   | j + 1 =>
     match l.get? j with
     | some c => !isWordChar c
     | none => true) &&
  (match l.get? (i + w.length) with
   | some c => !isWordChar c
   | none => true)

/-- Number of matches of `/\b(?:kw1|…|kwn)\b/g`: whole-word occurrences of
the keywords.  No keyword below is a prefix of another and word-bounded
occurrences cannot overlap, so the global-regex match count is the count of
starting positions. -/
def countWordMatches (kws : List String) (l : List Char) : Nat :=
  (List.range l.length).countP fun i => kws.any fun kw => wordMatchAt l i kw.toList

/-- Length of the run of digits at the head of the list. -/
def digitRunLen : List Char → Nat
  | [] => 0
  | c :: cs => if c.isDigit then digitRunLen cs + 1 else 0

/-- Length of the match of `/<@!?\d+>/` anchored at the head of the list, if
any. -/
def mentionMatchLen (l : List Char) : Option Nat :=
  match l with
  | '<' :: '@' :: rest =>
    let bang := if rest.head? = some '!' then 1 else 0
    let rest' := rest.drop bang
    let d := digitRunLen rest'
    if 1 ≤ d && rest'.get? d = some '>' then some (2 + bang + d + 1) else none
  | _ => none

/-- Length of the match of `/<a?:.+?:\d+>/` anchored at the head of the
list, if any: after the `<a?:` header, the lazy `.+?` takes the smallest
`k ≥ 1` of non-line-terminator characters such that a `:`, one or more
digits and a `>` follow. -/
def emojiMatchLen (l : List Char) : Option Nat :=
  let header : Option Nat :=
    match l with
    | '<' :: 'a' :: ':' :: _ => some 3
    | '<' :: ':' :: _ => some 2
    | _ => none
  match header with
  | none => none
  | some h =>
    (List.range l.length).findSome? fun k0 =>
      let k := k0 + 1
      if sliceAll l h (h + k) isJsDot && l.get? (h + k) = some ':' then
        let rest := l.drop (h + k + 1)
        let d := digitRunLen rest
        if 1 ≤ d && rest.get? d = some '>' then some (h + k + 1 + d + 1) else none
      else none

/-- Count the non-overlapping matches a global regex finds scanning left to
right: at each position try the anchored matcher `f`; on a match of length
`m` continue after it, otherwise advance one character.  The fuel is the
list length, enough since every step consumes at least one character. -/
def countMatchesAux (f : List Char → Option Nat) : Nat → List Char → Nat
  | 0, _ => 0
  | _ + 1, [] => 0
  | fuel + 1, l@(_ :: rest) =>
    match f l with
    | some m => 1 + countMatchesAux f fuel (l.drop (max m 1))
    | none => countMatchesAux f fuel rest

def countMatches (f : List Char → Option Nat) (l : List Char) : Nat :=
  countMatchesAux f l.length l

/-- `checkMessageLength` (source lines 35–48). -/
def checkMessageLength (content : String) : ModerationResult :=
  if configMaxMessageLength < content.length then
    { isApproved := false,
      reason := "Message exceeds maximum length of " ++
        toString configMaxMessageLength ++ " characters",
      severity := "medium", actions := ["truncate", "warn"] }
  else
    { isApproved := true, reason := "Message length acceptable",
      severity := "low", actions := [] }

/-- `checkForbiddenWords` (source lines 51–74): collect the configured words
occurring as substrings of the lower-cased content, in the `Set`'s insertion
order. -/
def checkForbiddenWords (content : String) : ModerationResult :=
  let lowerContent := jsToLowerCase content
  let foundWords := configForbiddenWords.filter fun word =>
    containsSub lowerContent word.toList
  if 0 < foundWords.length then
    let severity := if 3 ≤ foundWords.length then "high" else "medium"
    let actions := if severity = "high" then ["delete", "warn", "timeout"] else ["warn"]
    { isApproved := false,
      reason := "Forbidden words detected: " ++ String.intercalate ", " foundWords,
      severity := severity, actions := actions }
  else
    { isApproved := true, reason := "No forbidden words detected",
      severity := "low", actions := [] }

/-- `checkSpamPatterns` (source lines 77–91): the three patterns are
`/(.)\1{4,}/` (run of 5 identical characters), a cluster of 3 URLs, and
`/([A-Za-z0-9])\1{10,}/` (run of 11 identical alphanumerics); each pattern
yields the same violation, so the loop reduces to their disjunction. -/
def checkSpamPatterns (content : String) : ModerationResult :=
  let l := content.toList
  if hasRunGE 5 isJsDot l || hasUrlCluster l || hasRunGE 11 (fun c => c.isAlphanum) l then
    { isApproved := false, reason := "Spam pattern detected",
      severity := "medium", actions := ["warn", "delete"] }
  else
    { isApproved := true, reason := "No spam patterns detected",
      severity := "low", actions := [] }

def commerceKeywords : List String :=
  ["buy", "sell", "discount", "free", "money", "cash", "bitcoin", "eth", "crypto"]

def callToActionKeywords : List String :=
  ["click", "link", "url", "website", "join", "subscribe"]

/-- `checkSuspiciousContent` (source lines 94–115): total match count of the
two suspicious-keyword patterns over the lower-cased content. -/
def checkSuspiciousContent (content : String) : ModerationResult :=
  let lowerContent := jsToLowerCase content
  let suspiciousCount :=
    countWordMatches commerceKeywords lowerContent +
    countWordMatches callToActionKeywords lowerContent
  if 3 ≤ suspiciousCount then
    { isApproved := false, reason := "Suspicious content detected",
      severity := "medium", actions := ["flag", "warn"] }
  else
    { isApproved := true, reason := "Content appears normal",
      severity := "low", actions := [] }

/-- `checkExcessiveMentions` (source lines 118–132). -/
def checkExcessiveMentions (content : String) : ModerationResult :=
  if 5 < countMatches mentionMatchLen content.toList then
    { isApproved := false, reason := "Excessive mentions detected",
      severity := "medium", actions := ["warn", "delete"] }
  else
    { isApproved := true, reason := "Mention count acceptable",
      severity := "low", actions := [] }

/-- `checkExcessiveEmojis` (source lines 135–149). -/
def checkExcessiveEmojis (content : String) : ModerationResult :=
  if 10 < countMatches emojiMatchLen content.toList then
    { isApproved := false, reason := "Excessive emojis detected",
      severity := "low", actions := ["warn"] }
  else
    { isApproved := true, reason := "Emoji count acceptable",
      severity := "low", actions := [] }

/-- `checkCapsSpam` (source lines 152–166): `letters` strips everything but
ASCII letters, `upperCase` everything but `A–Z`; the float comparison
`upperCase.length / letters.length > 0.7` is embedded as the exact rational
comparison. -/
def checkCapsSpam (content : String) : ModerationResult :=
  let letters := (content.toList.filter fun c => c.isAlpha).length
  let upperCase := (content.toList.filter fun c => c.isUpper).length
  if 10 < letters && letters * 7 < upperCase * 10 then
    { isApproved := false, reason := "Excessive capitalization detected",
      severity := "low", actions := ["warn"] }
  else
    { isApproved := true, reason := "Capitalization acceptable",
      severity := "low", actions := [] }

/-- The `checks` array of `moderateContent` (source lines 175–183), in
evaluation order. -/
def moderationChecks (content : String) : List ModerationResult :=
  [ checkMessageLength content,
    checkForbiddenWords content,
    checkSpamPatterns content,
    checkSuspiciousContent content,
    checkExcessiveMentions content,
    checkExcessiveEmojis content,
    checkCapsSpam content ]

/-- `severityOrder` (source line 193); severities outside the table map to 0
(the code never produces one). -/
def severityOrder (s : String) : Nat :=
  if s = "low" then 1
  else if s = "medium" then 2
  else if s = "high" then 3
  else if s = "critical" then 4
  else 0

/-- Insert into a list sorted by descending `severityOrder`, after the
strictly-greater entries and before equal ones — the placement a stable sort
(guaranteed for JS `Array.prototype.sort`) gives an element that preceded
the rest. -/
def insertBySeverityDesc (x : ModerationResult) : List ModerationResult → List ModerationResult
  | [] => [x]
  | y :: ys =>
    if severityOrder y.severity ≤ severityOrder x.severity then x :: y :: ys
    else y :: insertBySeverityDesc x ys

/-- Stable sort by descending severity:
`violations.sort((a, b) => severityOrder[b.severity] - severityOrder[a.severity])`
(source lines 194–196). -/
def sortBySeverityDesc : List ModerationResult → List ModerationResult
  | [] => []
  | x :: xs => insertBySeverityDesc x (sortBySeverityDesc xs)

/-- `moderateContent(content, …)` (source lines 169–213): short-circuit when
moderation is disabled; run the seven checks; if none violates return
approved, else return the head of the stable descending-severity sort.
(`sortBySeverityDesc vs = []` exactly when `vs = []`, so the match mirrors
the `violations.length === 0` test.)  The security-event log call carries no
data used by any claim and is not modelled here. -/
def moderateContent (content : String) : ModerationResult :=
  if configContentModerationEnabled = false then
    { isApproved := true, reason := "Content moderation disabled",
      severity := "low", actions := [] }
  else
    let checks := moderationChecks content
    let violations := checks.filter fun check => !check.isApproved
    match sortBySeverityDesc violations with
    | [] =>
      { isApproved := true, reason := "Content approved",
        severity := "low", actions := [] }
    | worstViolation :: _ => worstViolation

/-- The first element of maximal `severityOrder` in `x :: xs` — the
specification-side description of what the stable sort's head must be. -/
def firstMaxBySeverity (x : ModerationResult) : List ModerationResult → ModerationResult
  | [] => x
  | y :: ys =>
    let m := firstMaxBySeverity y ys
    if severityOrder m.severity ≤ severityOrder x.severity then x else m

/-- Sequencing of the `checks` array literal: in JS the first element whose
evaluation throws aborts the whole array expression with that exception. -/
def sequenceExcept : List (Except String ModerationResult) →
    Except String (List ModerationResult)
  | [] => .ok []
  | .error e :: _ => .error e
  | .ok r :: rest =>
    match sequenceExcept rest with
    | .error e => .error e
    | .ok rs => .ok (r :: rs)

/-- `moderateContent` with the `try { … } catch` made explicit (source lines
170 and 209–212): the rule evaluations are given as `Except` values; if any
of them throws, control reaches the `catch` block, which calls
`logger.error('Content moderation error:', error)` and returns the approved
`'Moderation check failed'` result.  The second component collects the
messages passed to `logger.error`. -/
def moderateContentTry (enabled : Bool)
    (ruleResults : List (Except String ModerationResult)) :
    ModerationResult × List String :=
  if enabled = false then
    ({ isApproved := true, reason := "Content moderation disabled",
       severity := "low", actions := [] }, [])
  else
    match sequenceExcept ruleResults with
    | .error e =>
      ({ isApproved := true, reason := "Moderation check failed",
         severity := "low", actions := [] }, ["Content moderation error: " ++ e])
    | .ok checks =>
      let violations := checks.filter fun check => !check.isApproved
      match sortBySeverityDesc violations with
      | [] =>
        ({ isApproved := true, reason := "Content approved",
           severity := "low", actions := [] }, [])
      | worstViolation :: _ => (worstViolation, [])

/-- The result object of `moderateUserBehavior` (source lines 241–254). -/
structure BehaviorResult where
  shouldModerate : Bool
  reason : String
  actions : List String
  deriving DecidableEq, Repr

/-- `moderateUserBehavior(userId, guildId, action)` (source lines 216–255).
The tracking map is created *inside* the function
(`const userActions = new Map()`, line 219), so every call starts from an
empty map; the embedding reproduces each step on that empty map. -/
def moderateUserBehavior (userId guildId action : String) (now : Int) :
    BehaviorResult :=
  let userActions : List (String × List Int) := []
  let key := userId ++ "-" ++ guildId
  let windowMs : Int := 60000
  let userActions := if mapHas userActions key then userActions
    else mapSet userActions key []
  let actions := (mapGet userActions key).getD []
  let recentActions := actions.filter fun time => now - time < windowMs
  if 10 < recentActions.length then
    { shouldModerate := true, reason := "Excessive activity detected",
      actions := ["timeout", "warn"] }
  else
    { shouldModerate := false, reason := "User behavior acceptable",
      actions := [] }

/-! ## Session registry: `src/discord/botManager.js`

The module-level `activeBots` map keys tenant (bot) ids to
`{client, config, startedAt, isActive}` records.  Discord clients are
embedded as opaque numeric ids, and `client.login` is taken on its success
path (a login failure throws out of `startBot` before any registration and
is irrelevant to the registry claims). -/

structure BotConfig where
  id : String
  name : String
  token : String
  deriving DecidableEq, Repr

/-- The record stored in `activeBots` (source lines 117–122). -/
structure BotInstance where
  client : Nat
  config : BotConfig
  startedAt : Int
  isActive : Bool
  deriving DecidableEq, Repr

/-- What `startBot` returns: the raw `client` on a fresh start (source line
130), but the whole stored instance record when the id is already running
(source line 110 returns `activeBots.get(botConfig.id)`). -/
inductive StartBotResult where
  | startedClient (client : Nat)
  | returnedExisting (inst : BotInstance)
  deriving DecidableEq, Repr

/-- `startBot(botConfig)` (source lines 106–135).  If `activeBots` already
has the id, the code logs `Bot … is already running` and returns the
existing entry, leaving the registry untouched; otherwise it creates a
client (embedded as the fresh id `newClient`), logs in, and registers the
new instance. -/
def startBot (activeBots : List (String × BotInstance)) (botConfig : BotConfig)
    (now : Int) (newClient : Nat) :
    StartBotResult × List (String × BotInstance) :=
  match mapGet activeBots botConfig.id with
  | some existing => (.returnedExisting existing, activeBots)
  | none =>
    let inst : BotInstance :=
      { client := newClient, config := botConfig, startedAt := now, isActive := true }
    (.startedClient newClient, mapSet activeBots botConfig.id inst)

/-- `stopBot(botId)` (source lines 138–160): `false` and no change when the
id is not running, else destroy the client, delete the entry and return
`true`. -/
def stopBot (activeBots : List (String × BotInstance)) (botId : String) :
    Bool × List (String × BotInstance) :=
  match mapGet activeBots botId with
  | none => (false, activeBots)
  | some _ => (true, mapDelete activeBots botId)

/-! ## Supporting lemmas -/

theorem sortBySeverityDesc_cons (v : ModerationResult) (vs : List ModerationResult) :
    ∃ t, sortBySeverityDesc (v :: vs) = firstMaxBySeverity v vs :: t := by
  induction vs generalizing v with
  | nil => exact ⟨[], rfl⟩
  | cons y ys ih =>
    obtain ⟨t, ht⟩ := ih y
    simp only [sortBySeverityDesc] at ht ⊢
    rw [ht]
    by_cases hc : severityOrder (firstMaxBySeverity y ys).severity ≤
        severityOrder v.severity
    · exact ⟨firstMaxBySeverity y ys :: t, by simp [insertBySeverityDesc, firstMaxBySeverity, hc]⟩
    · exact ⟨insertBySeverityDesc v t, by simp [insertBySeverityDesc, firstMaxBySeverity, hc]⟩

theorem firstMaxBySeverity_spec (vs : List ModerationResult) (v : ModerationResult) :
    ∃ l1 l2, v :: vs = l1 ++ firstMaxBySeverity v vs :: l2
      ∧ (∀ u ∈ l1, severityOrder u.severity <
           severityOrder (firstMaxBySeverity v vs).severity)
      ∧ (∀ u ∈ v :: vs, severityOrder u.severity ≤
           severityOrder (firstMaxBySeverity v vs).severity) := by
  induction vs generalizing v with
  | nil =>
    refine ⟨[], [], rfl, by simp, ?_⟩
    intro u hu
    simp only [List.mem_singleton] at hu
    simp [hu, firstMaxBySeverity]
  | cons y ys ih =>
    obtain ⟨l1, l2, heq, hlt, hle⟩ := ih y
    by_cases hc : severityOrder (firstMaxBySeverity y ys).severity ≤
        severityOrder v.severity
    · refine ⟨[], y :: ys, ?_, by simp, ?_⟩
      · simp [firstMaxBySeverity, hc]
      · intro u hu
        simp only [firstMaxBySeverity, hc, if_pos]
        rcases List.mem_cons.mp hu with h | h
        · exact le_of_eq (by rw [h])
        · exact le_trans (hle u h) hc
    · have hvlt : severityOrder v.severity <
          severityOrder (firstMaxBySeverity y ys).severity := Nat.lt_of_not_le hc
      refine ⟨v :: l1, l2, ?_, ?_, ?_⟩
      · simp [firstMaxBySeverity, hc, heq]
      · intro u hu
        simp only [firstMaxBySeverity, hc, if_neg]
        rcases List.mem_cons.mp hu with h | h
        · rw [h]; exact hvlt
        · exact hlt u h
      · intro u hu
        simp only [firstMaxBySeverity, hc, if_neg]
        rcases List.mem_cons.mp hu with h | h
        · rw [h]; exact le_of_lt hvlt
        · exact hle u h

/-! ## Claims -/

/-- C6: for an array of granted permissions, `hasPermission` is true iff the
required permission, `admin`, or `*` is an element of the array. -/
theorem hasPermission_iff_mem (granted : List String) (required : String) :
    hasPermission (JsPerms.arr granted) required = true ↔
      required ∈ granted ∨ "admin" ∈ granted ∨ "*" ∈ granted := by
  simp [hasPermission, or_assoc]

/-- C10: `hasPermission` returns `false` (rather than throwing) when the
granted argument is `null`/`undefined` or any other non-array value. -/
theorem hasPermission_nonArray_false (required : String) :
    hasPermission JsPerms.nullish required = false ∧
    hasPermission JsPerms.nonArray required = false :=
  ⟨rfl, rfl⟩

/-- C9: whenever `validateApiKey` returns `null` the credential store is
unchanged (so `lastUsed` is only mutated on a successful verification), and
a key that misses the store or hits an inactive record yields `null` with
the store unchanged. -/
theorem validateApiKey_miss_no_mutation :
    (∀ (st : AuthState) (k : Option String) (now : Int),
        (validateApiKey st k now).1 = none → (validateApiKey st k now).2 = st)
    ∧ (∀ (st : AuthState) (k : String) (now : Int),
        (mapGet st.apiKeys k = none ∨
          ∃ kd, mapGet st.apiKeys k = some kd ∧ kd.isActive = false) →
        validateApiKey st (some k) now = (none, st)) := by
  constructor
  · intro st k now h
    match k with
    | none => rfl
    | some s =>
      by_cases hs : s = ""
      · simp [validateApiKey, hs]
      · match hget : mapGet st.apiKeys s with
        | none => simp [validateApiKey, hs, hget]
        | some kd =>
          by_cases hact : kd.isActive = false
          · simp [validateApiKey, hs, hget, hact]
          · exfalso
            simp [validateApiKey, hs, hget, hact] at h
  · intro st k now h
    by_cases hs : k = ""
    · simp [validateApiKey, hs]
    · rcases h with hmiss | ⟨kd, hget, hact⟩
      · simp [validateApiKey, hs, hmiss]
      · simp [validateApiKey, hs, hget, hact]

/-- Witness for C9 at a concrete store holding one active record under key
`"k1"`: a missing key and an inactive record both return `null` without
touching the store. -/
theorem validateApiKey_miss_no_mutation_witness :
    validateApiKey
      ⟨[("k1", ⟨"u1", "h1", ["read"], 0, none, true⟩)]⟩ (some "absent") 7
      = (none, ⟨[("k1", ⟨"u1", "h1", ["read"], 0, none, true⟩)]⟩)
    ∧ validateApiKey
      ⟨[("k2", ⟨"u2", "h2", [], 0, none, false⟩)]⟩ (some "k2") 7
      = (none, ⟨[("k2", ⟨"u2", "h2", [], 0, none, false⟩)]⟩) :=
  ⟨validateApiKey_miss_no_mutation.2 _ _ _ (Or.inl (by decide)),
   validateApiKey_miss_no_mutation.2 _ _ _
     (Or.inr ⟨⟨"u2", "h2", [], 0, none, false⟩, by decide, rfl⟩)⟩

/-- C8: `moderateUserBehavior` rebuilds its tracking map from scratch on
every invocation, so every call sees an empty history and reports
`shouldModerate = false`. -/
theorem moderateUserBehavior_no_memory (userId guildId action : String) (now : Int) :
    moderateUserBehavior userId guildId action now =
      { shouldModerate := false, reason := "User behavior acceptable",
        actions := [] } := by
  simp [moderateUserBehavior, mapHas, mapGet, mapSet]

/-- C3: whenever at least one check violates, `moderateContent` returns a
violation of maximal severity that is the earliest-evaluated among the
equally-severe ones (the violation list splits as `l1 ++ result :: l2` with
everything in `l1` strictly less severe and everything ≤ the result); in
particular, on `"AAAAAAAAAA buy bitcoin now buy bitcoin now buy bitcoin
now"` — which trips both the spam-pattern and the suspicious-keyword rule
at severity medium — the verdict is the spam rule's: medium with actions
warn, delete. -/
theorem moderateContent_picks_first_max :
    (∀ content : String,
      (moderationChecks content).filter (fun check => !check.isApproved) ≠ [] →
      ∃ l1 l2,
        (moderationChecks content).filter (fun check => !check.isApproved)
            = l1 ++ moderateContent content :: l2
        ∧ (∀ u ∈ l1, severityOrder u.severity <
            severityOrder (moderateContent content).severity)
        ∧ (∀ u ∈ (moderationChecks content).filter (fun check => !check.isApproved),
            severityOrder u.severity ≤
              severityOrder (moderateContent content).severity))
    ∧ moderateContent "AAAAAAAAAA buy bitcoin now buy bitcoin now buy bitcoin now"
        = { isApproved := false, reason := "Spam pattern detected",
            severity := "medium", actions := ["warn", "delete"] } := by
  constructor
  · intro content hne
    obtain ⟨v, vs, hvs⟩ := List.exists_cons_of_ne_nil hne
    have hmc : moderateContent content = firstMaxBySeverity v vs := by
      obtain ⟨t, ht⟩ := sortBySeverityDesc_cons v vs
      simp only [moderateContent, configContentModerationEnabled, hvs, ht]
      rfl
    rw [hmc, hvs]
    exact firstMaxBySeverity_spec vs v
  · decide

/-- Witness for C3 at the spec's test string, whose violation list is
non-empty. -/
theorem moderateContent_picks_first_max_witness :
    ∃ l1 l2,
      (moderationChecks
          "AAAAAAAAAA buy bitcoin now buy bitcoin now buy bitcoin now").filter
          (fun check => !check.isApproved)
        = l1 ++ moderateContent
            "AAAAAAAAAA buy bitcoin now buy bitcoin now buy bitcoin now" :: l2
      ∧ (∀ u ∈ l1, severityOrder u.severity <
          severityOrder (moderateContent
            "AAAAAAAAAA buy bitcoin now buy bitcoin now buy bitcoin now").severity)
      ∧ (∀ u ∈ (moderationChecks
            "AAAAAAAAAA buy bitcoin now buy bitcoin now buy bitcoin now").filter
            (fun check => !check.isApproved),
          severityOrder u.severity ≤
            severityOrder (moderateContent
              "AAAAAAAAAA buy bitcoin now buy bitcoin now buy bitcoin now").severity) :=
  moderateContent_picks_first_max.1
    "AAAAAAAAAA buy bitcoin now buy bitcoin now buy bitcoin now" (by decide)

theorem filter_window_eq_self (w now : Int) (cur : List Int)
    (h : ∀ c ∈ cur, now - c < w) :
    (cur.filter fun time => now - time < w) = cur :=
  List.filter_eq_self.mpr fun a ha => by simpa using h a ha

theorem filter_window_eq_nil (w now : Int) (cur : List Int)
    (h : ∀ c ∈ cur, w ≤ now - c) :
    (cur.filter fun time => now - time < w) = [] :=
  List.filter_eq_nil_iff.mpr fun a ha => by simpa using h a ha

theorem rateLimiterRun_all_accept (w : Int) (m : Nat) (key : String) :
    ∀ (ts : List Int) (st : List (String × List Int)) (cur : List Int),
      (mapGet st key).getD [] = cur →
      cur.length + ts.length ≤ m →
      (∀ t ∈ ts, ∀ c ∈ cur, t - c < w) →
      (∀ a ∈ ts, ∀ b ∈ ts, b - a < w) →
      (rateLimiterRun w m st key ts).1 = List.replicate ts.length RLDecision.accept ∧
      (mapGet (rateLimiterRun w m st key ts).2 key).getD [] = cur ++ ts := by
  intro ts
  induction ts with
  | nil =>
    intro st cur hcur _ _ _
    exact ⟨rfl, by simpa using hcur⟩
  | cons t ts ih =>
    intro st cur hcur hlen hwin hpair
    have hlen' : cur.length + ts.length + 1 ≤ m := by simpa using hlen
    have hfilter : (cur.filter fun time => t - time < w) = cur :=
      filter_window_eq_self w t cur fun c hc => hwin t (List.mem_cons_self t ts) c hc
    have hstep : rateLimiterCall w m st key t =
        (RLDecision.accept, mapSet st key (cur ++ [t])) := by
      simp only [rateLimiterCall, hcur, hfilter]
      rw [if_neg (by omega)]
    have hcur' : (mapGet (mapSet st key (cur ++ [t])) key).getD [] = cur ++ [t] := by
      rw [mapGet_mapSet]; rfl
    have hrest := ih (mapSet st key (cur ++ [t])) (cur ++ [t]) hcur'
      (by simp; omega)
      (by
        intro t' ht' c hc
        rcases List.mem_append.mp hc with h | h
        · exact hwin t' (List.mem_cons_of_mem t ht') c h
        · rw [List.mem_singleton.mp h]
          exact hpair t (List.mem_cons_self t ts) t' (List.mem_cons_of_mem t ht'))
      (fun a ha b hb => hpair a (List.mem_cons_of_mem t ha) b (List.mem_cons_of_mem t hb))
    refine ⟨?_, ?_⟩
    · simp only [rateLimiterRun, hstep, hrest.1, List.length_cons, List.replicate_succ]
    · simp only [rateLimiterRun, hstep, hrest.2]
      simp

theorem rateLimiterRun_append (w : Int) (m : Nat) (key : String) :
    ∀ (l1 l2 : List Int) (st : List (String × List Int)),
      rateLimiterRun w m st key (l1 ++ l2)
        = ((rateLimiterRun w m st key l1).1 ++
             (rateLimiterRun w m (rateLimiterRun w m st key l1).2 key l2).1,
           (rateLimiterRun w m (rateLimiterRun w m st key l1).2 key l2).2) := by
  intro l1
  induction l1 with
  | nil => intro l2 st; simp [rateLimiterRun]
  | cons t ts ih =>
    intro l2 st
    simp only [List.cons_append, rateLimiterRun, List.append_eq, ih]

/-- C4: starting from a fresh limiter, `max + 1` calls for one key whose
timestamps all lie within one window produce `max` accepts followed by one
rejection; the rejected call records nothing (the key's stored list stays
the first `max` timestamps), and a later call made a full window after
every earlier timestamp is accepted again.  (`max` is the configured
positive request budget.) -/
theorem rateLimiter_sliding_window (w : Int) (m : Nat) (key : String)
    (ts : List Int) (tNext : Int)
    (hm : 0 < m) (hlen : ts.length = m + 1)
    (hwin : ∀ a ∈ ts, ∀ b ∈ ts, b - a < w)
    (hafter : ∀ a ∈ ts, w ≤ tNext - a) :
    (rateLimiterRun w m [] key ts).1
        = List.replicate m RLDecision.accept ++
            [RLDecision.reject (mathCeilDiv1000 w)]
      ∧ (mapGet (rateLimiterRun w m [] key ts).2 key).getD [] = ts.take m
      ∧ (rateLimiterCall w m (rateLimiterRun w m [] key ts).2 key tNext).1
          = RLDecision.accept := by
  have htakelen : (ts.take m).length = m := by
    rw [List.length_take, hlen]; omega
  have hdroplen : (ts.drop m).length = 1 := by
    rw [List.length_drop, hlen]; omega
  obtain ⟨tlast, hdrop⟩ := List.length_eq_one.mp hdroplen
  have htlast : tlast ∈ ts := by
    have : tlast ∈ ts.drop m := by rw [hdrop]; exact List.mem_singleton_self tlast
    exact List.mem_of_mem_drop this
  have hmemtake : ∀ a ∈ ts.take m, a ∈ ts := fun a ha => List.mem_of_mem_take ha
  have hphase1 := rateLimiterRun_all_accept w m key (ts.take m) [] []
    rfl (by simp [htakelen])
    (by intro t ht c hc; exact absurd hc (List.not_mem_nil c))
    (fun a ha b hb => hwin a (hmemtake a ha) b (hmemtake b hb))
  have hstate1 : (mapGet (rateLimiterRun w m [] key (ts.take m)).2 key).getD []
      = ts.take m := by
    have := hphase1.2
    simpa using this
  have hfilter2 : ((ts.take m).filter fun time => tlast - time < w) = ts.take m :=
    filter_window_eq_self w tlast (ts.take m)
      fun c hc => hwin c (hmemtake c hc) tlast htlast
  have hstep2 : rateLimiterCall w m (rateLimiterRun w m [] key (ts.take m)).2 key tlast
      = (RLDecision.reject (mathCeilDiv1000 w),
         mapSet (rateLimiterRun w m [] key (ts.take m)).2 key (ts.take m)) := by
    simp only [rateLimiterCall, hstate1, hfilter2]
    rw [if_pos (by rw [htakelen])]
  have hsplit : ts.take m ++ [tlast] = ts := by
    rw [← hdrop]; exact List.take_append_drop m ts
  have hrun : rateLimiterRun w m [] key ts
      = (List.replicate m RLDecision.accept ++ [RLDecision.reject (mathCeilDiv1000 w)],
         mapSet (rateLimiterRun w m [] key (ts.take m)).2 key (ts.take m)) := by
    rw [← hsplit, rateLimiterRun_append]
    rw [hsplit]
    have h1 : (rateLimiterRun w m [] key (ts.take m)).1
        = List.replicate m RLDecision.accept := by
      have := hphase1.1
      rwa [htakelen] at this
    simp only [rateLimiterRun, hstep2, h1]
  have hstate2 : (mapGet (rateLimiterRun w m [] key ts).2 key).getD [] = ts.take m := by
    rw [hrun]
    simp [mapGet_mapSet]
  refine ⟨by rw [hrun], hstate2, ?_⟩
  have hfilter3 : ((ts.take m).filter fun time => tNext - time < w) = [] :=
    filter_window_eq_nil w tNext (ts.take m) fun c hc => hafter c (hmemtake c hc)
  simp only [rateLimiterCall, hstate2, hfilter3]
  rw [if_neg (by simp; omega)]

/-- Witness for C4: window 100ms, budget 2, calls at 0, 1, 2 and a final
call at 200. -/
theorem rateLimiter_sliding_window_witness :
    (rateLimiterRun 100 2 [] "u" [0, 1, 2]).1
        = List.replicate 2 RLDecision.accept ++
            [RLDecision.reject (mathCeilDiv1000 100)]
      ∧ (mapGet (rateLimiterRun 100 2 [] "u" [0, 1, 2]).2 "u").getD []
          = [0, 1, 2].take 2
      ∧ (rateLimiterCall 100 2 (rateLimiterRun 100 2 [] "u" [0, 1, 2]).2 "u" 200).1
          = RLDecision.accept :=
  rateLimiter_sliding_window 100 2 "u" [0, 1, 2] 200
    (by decide) (by decide) (by decide) (by decide)

/-- C5 counterexample: with a 10-second window and budget 1, a call at
t = 0 is accepted; the call at t = 5000 is rejected carrying
`retryAfter = Math.ceil(10000 / 1000) = 10`, while the remaining window
duration — the time until the oldest recorded timestamp (0) leaves the
window — is 5 seconds.  The hint is therefore not the remaining duration. -/
theorem rateLimiter_retryAfter_cex :
    rateLimiterCall 10000 1 [] "u" 0 = (RLDecision.accept, [("u", [0])])
    ∧ (rateLimiterCall 10000 1 [("u", [0])] "u" 5000).1 = RLDecision.reject 10
    ∧ retryAfterRemainingSpec 10000 5000 0 = 5
    ∧ (10 : Int) ≠ 5 := by decide

/-- C5 amended: every rejection carries `retryAfter = Math.ceil(windowMs /
1000)`, a constant determined by the configured window alone, independent
of the recorded timestamps. -/
theorem rateLimiterCall_reject_constant_retryAfter
    (w : Int) (m : Nat) (st : List (String × List Int)) (key : String)
    (now r : Int) (st2 : List (String × List Int))
    (h : rateLimiterCall w m st key now = (RLDecision.reject r, st2)) :
    r = mathCeilDiv1000 w := by
  by_cases hc : m ≤ (((mapGet st key).getD []).filter fun time => now - time < w).length
  · simp only [rateLimiterCall, if_pos hc, Prod.mk.injEq] at h
    exact (RLDecision.reject.inj h.1).symm
  · simp [rateLimiterCall, if_neg hc] at h

/-- Witness for C5's amended theorem at the counterexample's rejecting
call. -/
theorem rateLimiterCall_reject_constant_retryAfter_witness :
    (10 : Int) = mathCeilDiv1000 10000 :=
  rateLimiterCall_reject_constant_retryAfter 10000 1 [("u", [0])] "u" 5000 10
    [("u", [0])] (by decide)

/-- C1 counterexample: run `createApiKey` for user `user_1` with fresh key
`"k-plain-123"` (the bcrypt hash abstracted as a constant-output function —
a bcrypt digest never embeds the plaintext).  Afterwards the credential
store's key set is exactly the plaintext API key, and the startup log
contains a line in which the plaintext occurs verbatim — contradicting
"no stored record and no log output contains the plaintext API key". -/
theorem createApiKey_plaintext_cex :
    ((createApiKey (fun _ => "bcrypt-digest") ⟨[]⟩ "user_1" ["admin"]
        "k-plain-123" 0).2.apiKeys.map Prod.fst = ["k-plain-123"])
    ∧ ¬ (∀ line ∈ startApplicationLogLines "admin" "k-plain-123",
          containsSub line.toList "k-plain-123".toList = false) := by
  refine ⟨by decide, ?_⟩
  intro h
  have := h "API Key: k-plain-123" (by decide)
  simp at this
  exact absurd this (by decide)

/-- C1 amended: `createApiKey` returns the plaintext key once and the
stored record's `hashedKey` field holds only the bcrypt hash — but the
record is keyed in the `apiKeys` map by the plaintext key itself, and
`startApplication` writes the line `API Key: <plaintext>` to the log, so
the plaintext is persisted (as the store's lookup key) and logged. -/
theorem createApiKey_plaintext_key_and_log (hash : String → String)
    (st : AuthState) (userId : String) (permissions : List String)
    (apiKey : String) (now : Int) (adminUsername : String) :
    (createApiKey hash st userId permissions apiKey now).1.apiKey = apiKey
    ∧ mapGet (createApiKey hash st userId permissions apiKey now).2.apiKeys apiKey
        = some { userId := userId, hashedKey := hash apiKey,
                 permissions := permissions, createdAt := now,
                 lastUsed := none, isActive := true }
    ∧ ("API Key: " ++ apiKey) ∈ startApplicationLogLines adminUsername apiKey := by
  refine ⟨rfl, ?_, ?_⟩
  · exact mapGet_mapSet st.apiKeys apiKey _
  · simp [startApplicationLogLines]

/-- C2 counterexample: from an empty registry, `startBot` for tenant
`default` registers a session and returns the new client; the second
`startBot` without an intervening stop does not fail — it succeeds,
returning exactly the existing stored session and leaving the registry
unchanged, contradicting "fails with AlreadyRunning (does not succeed and
does not return the existing session)". -/
theorem startBot_second_call_cex :
    startBot [] ⟨"default", "MCP Discord Bot", "tok"⟩ 0 1
      = (StartBotResult.startedClient 1,
         [("default", ⟨1, ⟨"default", "MCP Discord Bot", "tok"⟩, 0, true⟩)])
    ∧ startBot [("default", ⟨1, ⟨"default", "MCP Discord Bot", "tok"⟩, 0, true⟩)]
        ⟨"default", "MCP Discord Bot", "tok"⟩ 5 2
      = (StartBotResult.returnedExisting
           ⟨1, ⟨"default", "MCP Discord Bot", "tok"⟩, 0, true⟩,
         [("default", ⟨1, ⟨"default", "MCP Discord Bot", "tok"⟩, 0, true⟩)]) := by
  decide

/-- C2 amended: a second `startBot` for a tenant id with a live session
does not start anything new — it logs a warning and returns the stored
session record, leaving the registry unchanged; after `stopBot` (which
returns `true` and removes the record) a subsequent `startBot` succeeds
with a fresh client. -/
theorem startBot_existing_then_stop_start
    (bots : List (String × BotInstance)) (cfg : BotConfig) (now : Int)
    (newClient : Nat) (inst : BotInstance)
    (h : mapGet bots cfg.id = some inst) :
    startBot bots cfg now newClient = (StartBotResult.returnedExisting inst, bots)
    ∧ stopBot bots cfg.id = (true, mapDelete bots cfg.id)
    ∧ mapGet (mapDelete bots cfg.id) cfg.id = none
    ∧ (startBot (mapDelete bots cfg.id) cfg now newClient).1
        = StartBotResult.startedClient newClient := by
  refine ⟨by simp [startBot, h], by simp [stopBot, h], mapGet_mapDelete bots cfg.id, ?_⟩
  simp [startBot, mapGet_mapDelete bots cfg.id]

/-- Witness for C2's amended theorem at the counterexample's registry. -/
theorem startBot_existing_then_stop_start_witness :
    startBot [("default", ⟨1, ⟨"default", "MCP Discord Bot", "tok"⟩, 0, true⟩)]
        ⟨"default", "MCP Discord Bot", "tok"⟩ 5 2
      = (StartBotResult.returnedExisting
           ⟨1, ⟨"default", "MCP Discord Bot", "tok"⟩, 0, true⟩,
         [("default", ⟨1, ⟨"default", "MCP Discord Bot", "tok"⟩, 0, true⟩)])
    ∧ stopBot [("default", ⟨1, ⟨"default", "MCP Discord Bot", "tok"⟩, 0, true⟩)]
        "default"
      = (true, mapDelete
          [("default",
            (⟨1, ⟨"default", "MCP Discord Bot", "tok"⟩, 0, true⟩ : BotInstance))]
          "default")
    ∧ mapGet (mapDelete
          [("default",
            (⟨1, ⟨"default", "MCP Discord Bot", "tok"⟩, 0, true⟩ : BotInstance))]
          "default") "default" = none
    ∧ (startBot (mapDelete
          [("default",
            (⟨1, ⟨"default", "MCP Discord Bot", "tok"⟩, 0, true⟩ : BotInstance))]
          "default") ⟨"default", "MCP Discord Bot", "tok"⟩ 5 2).1
        = StartBotResult.startedClient 2 :=
  startBot_existing_then_stop_start
    [("default", (⟨1, ⟨"default", "MCP Discord Bot", "tok"⟩, 0, true⟩ : BotInstance))]
    (⟨"default", "MCP Discord Bot", "tok"⟩ : BotConfig) 5 2
    (⟨1, ⟨"default", "MCP Discord Bot", "tok"⟩, 0, true⟩ : BotInstance) (by decide)

theorem sequenceExcept_error_of_mem
    (rs : List (Except String ModerationResult))
    (h : ∃ e, Except.error e ∈ rs) :
    ∃ e', sequenceExcept rs = Except.error e' := by
  obtain ⟨e, he⟩ := h
  induction rs with
  | nil => exact absurd he (List.not_mem_nil _)
  | cons r rest ih =>
    match r with
    | .error e0 => exact ⟨e0, rfl⟩
    | .ok v =>
      have : Except.error e ∈ rest := by
        rcases List.mem_cons.mp he with h | h
        · exact absurd h (by simp)
        · exact h
      obtain ⟨e', he'⟩ := ih this
      exact ⟨e', by simp [sequenceExcept, he']⟩

/-- C7: if any moderation rule evaluation throws, `moderateContent`'s
`catch` block fails open: the result is the approved `Moderation check
failed` verdict (the exception is not propagated and the content is not
rejected) and the error is handed to the logger. -/
theorem moderateContent_fails_open
    (ruleResults : List (Except String ModerationResult))
    (h : ∃ e, Except.error e ∈ ruleResults) :
    ∃ e', moderateContentTry true ruleResults
      = ({ isApproved := true, reason := "Moderation check failed",
           severity := "low", actions := [] },
         ["Content moderation error: " ++ e']) := by
  obtain ⟨e', he'⟩ := sequenceExcept_error_of_mem ruleResults h
  exact ⟨e', by simp [moderateContentTry, he']⟩

/-- Witness for C7: a single rule evaluation throwing `boom`. -/
theorem moderateContent_fails_open_witness :
    ∃ e', moderateContentTry true [Except.error "boom"]
      = ({ isApproved := true, reason := "Moderation check failed",
           severity := "low", actions := [] },
         ["Content moderation error: " ++ e']) :=
  moderateContent_fails_open [Except.error "boom"]
    ⟨"boom", List.mem_singleton_self _⟩

end DiscordMcp
